import Mathlib

/-!
Verification of `scripts/refresh_abi_map.py` from matter-labs/era-test-node.

The script scans `*.json` files in the working directory, and for every ABI
entry of type "function" prints a line `["0x<selector>", "name(t1, t2)"],`
where the selector is the first 4 bytes of the keccak-256 hash of the
canonical signature `name(t1,t2)` (computed by
`eth_utils.function_abi_to_4byte_selector`).

We embed the script shallowly: JSON access is modelled by record fields of
`Option` type (a `none` field models a missing key, whose access raises a
`KeyError` in Python), the file list replaces the glob, and printed lines are
collected into a list in print order.
-/

namespace RefreshAbiMap

/-! ## Keccak-256 (spec-modelled)

Modelled from the spec: the selector-derivation routine
`eth_utils.function_abi_to_4byte_selector` is a library dependency that is not
part of this repository; the spec describes it as a deterministic hash-based
derivation over the canonical signature text, truncated to its first 4 bytes.
The concrete primitive used by `eth_utils` is keccak-256 over the UTF-8 bytes
of `name(type1,type2,...)` (types joined by a bare comma), which we implement
here over `Nat` with explicit reduction modulo `2 ^ 64`. -/

/-- Rotate a 64-bit lane (represented as a `Nat < 2 ^ 64`) left by `n` bits. -/
def rotl64 (x n : Nat) : Nat :=
  ((x <<< n) ||| (x >>> (64 - n))) % (2 ^ 64)

/-- The 24 keccak-f[1600] round constants. -/
def RC : List Nat :=
  [0x1, 0x8082, 0x800000000000808a,
   0x8000000080008000, 0x808b, 0x80000001,
   0x8000000080008081, 0x8000000000008009, 0x8a,
   0x88, 0x80008009, 0x8000000a,
   0x8000808b, 0x800000000000008b, 0x8000000000008089,
   0x8000000000008003, 0x8000000000008002, 0x8000000000000080,
   0x800a, 0x800000008000000a, 0x8000000080008081,
   0x8000000000008080, 0x80000001, 0x8000000080008008]

/-- Rotation offsets for the rho step, indexed by `x + 5 * y` (row `y` of the
5-by-5 lane grid at a time). -/
def rhoOffsets : List Nat :=
  [0, 1, 62, 28, 27] ++
    [36, 44, 6, 55, 20] ++
    [3, 10, 43, 25, 39] ++
    [41, 45, 15, 21, 8] ++
    [18, 2, 61, 56, 14]

/-- Lane read of the 25-lane state (indexed by `x + 5 * y`, coordinates mod 5). -/
def aget (st : List Nat) (x y : Nat) : Nat :=
  st.getD (x % 5 + 5 * (y % 5)) 0

/-- One keccak-f round: theta, rho, pi, chi, iota. -/
def keccakRound (st : List Nat) (rc : Nat) : List Nat :=
  let cl := (List.range 5).map fun x =>
    aget st x 0 ^^^ aget st x 1 ^^^ aget st x 2 ^^^ aget st x 3 ^^^ aget st x 4
  let dl := (List.range 5).map fun x =>
    cl.getD ((x + 4) % 5) 0 ^^^ rotl64 (cl.getD ((x + 1) % 5) 0) 1
  let stA := (List.range 25).map fun i => st.getD i 0 ^^^ dl.getD (i % 5) 0
  let b := (List.range 25).map fun j =>
    let gx := (j % 5 + 3 * (j / 5)) % 5
    let gy := j % 5
    rotl64 (stA.getD (gx + 5 * gy) 0) (rhoOffsets.getD (gx + 5 * gy) 0)
  let stChi := (List.range 25).map fun j =>
    b.getD j 0 ^^^
      ((b.getD ((j % 5 + 1) % 5 + 5 * (j / 5)) 0 ^^^ (2 ^ 64 - 1)) &&&
        b.getD ((j % 5 + 2) % 5 + 5 * (j / 5)) 0)
  match stChi with
  | [] => []
  | h :: t => (h ^^^ rc) % (2 ^ 64) :: t

/-- The full keccak-f[1600] permutation: 24 rounds. -/
def keccakF (st : List Nat) : List Nat :=
  RC.foldl keccakRound st

/-- keccak multi-rate padding (pad10*1 with domain bit 0x01) for rate 136. -/
def pad101 (msg : List Nat) : List Nat :=
  let padlen := 136 - msg.length % 136
  if padlen = 1 then msg ++ [0x81]
  else msg ++ [0x01] ++ List.replicate (padlen - 2) 0 ++ [0x80]

/-- Interpret up to 8 bytes as one little-endian 64-bit lane. -/
def bytesToLane (bs : List Nat) : Nat :=
  bs.foldr (fun b acc => acc * 256 + b) 0

/-- Absorb one 136-byte block into the state and permute. -/
def absorbBlock (st : List Nat) (block : List Nat) : List Nat :=
  keccakF <| (List.range 25).map fun i =>
    st.getD i 0 ^^^ (if i < 17 then bytesToLane ((block.drop (8 * i)).take 8) else 0)

/-- Split a byte list into 136-byte blocks, with structural recursion on a
fuel argument (`fuel ≥ l.length` suffices: every step consumes a byte). -/
def blocks136Go : Nat → List Nat → List (List Nat)
  | 0, _ => []
  | _, [] => []
  | fuel + 1, b :: rest => (b :: rest).take 136 :: blocks136Go fuel ((b :: rest).drop 136)

/-- Split a byte list into 136-byte blocks. -/
def blocks136 (l : List Nat) : List (List Nat) :=
  blocks136Go l.length l

/-- keccak-256 of a byte string: absorb all padded blocks, squeeze 32 bytes. -/
def keccak256 (msg : List Nat) : List Nat :=
  let st := (blocks136 (pad101 msg)).foldl absorbBlock (List.replicate 25 0)
  (List.range 32).map fun i => (st.getD (i / 8) 0 >>> (8 * (i % 8))) % 256

/-- UTF-8 encoding of one Unicode code point, as Python `str.encode` performs it. -/
def utf8EncodeChar (c : Nat) : List Nat :=
  if c < 0x80 then [c]
  else if c < 0x800 then [0xc0 + c / 0x40, 0x80 + c % 0x40]
  else if c < 0x10000 then
    [0xe0 + c / 0x1000, 0x80 + c / 0x40 % 0x40, 0x80 + c % 0x40]
  else
    [0xf0 + c / 0x40000, 0x80 + c / 0x1000 % 0x40, 0x80 + c / 0x40 % 0x40,
     0x80 + c % 0x40]

/-- UTF-8 bytes of a string. -/
def utf8Bytes (s : String) : List Nat :=
  (s.data.map fun c => utf8EncodeChar c.toNat).flatten

/-- Modelled from the spec: `eth_utils.abi.abi_to_signature`, the canonical
signature text `name(type1,type2,...)` (types joined by a bare comma) over
which the selector hash is computed. -/
def abi_to_signature (name : String) (types : List String) : String :=
  name ++ "(" ++ String.intercalate "," types ++ ")"

/-- Modelled from the spec: `eth_utils.function_abi_to_4byte_selector`, a
deterministic hash-based derivation over the canonical signature text,
truncated to its first 4 bytes (keccak-256 of the UTF-8 signature bytes). -/
def function_abi_to_4byte_selector (name : String) (types : List String) : List Nat :=
  (keccak256 (utf8Bytes (abi_to_signature name types))).take 4

/-- The sixteen lowercase hexadecimal digits. -/
def hexDigits : List Char :=
  "0123456789abcdef".data

/-- One hexadecimal digit character for a nibble. -/
def hexDigit (n : Nat) : Char :=
  hexDigits.getD n '0'

/-- Lowercase hex characters of a byte list, two digits per byte, high nibble
first — as Python `bytes.hex()` renders it. -/
def hexOfBytes : List Nat → List Char
  | [] => []
  | b :: bs => hexDigit (b / 16 % 16) :: hexDigit (b % 16) :: hexOfBytes bs

/-- Python `bytes.hex()`: the lowercase hex string of a byte list. -/
def bytesHex (bs : List Nat) : String :=
  String.mk (hexOfBytes bs)

/-! ## The script

`refresh_abi_map.py` is a single module body; we model every JSON dictionary
access by an `Option`-typed field whose `none` value stands for a missing key
(whose access raises a `KeyError` in Python), the `glob.glob` result by an
explicit list of file contents, and the `print` calls by a list of lines in
print order. A run yields the printed lines together with the fatal error
that terminated it, if any. -/

/-- A parameter record of an ABI entry; `type` is `none` when the record has
no "type" key. -/
structure Param where
  type : Option String
deriving DecidableEq, Repr

/-- An ABI entry record; each field is `none` when the corresponding key is
missing from the record. -/
structure Entry where
  type : Option String
  name : Option String
  inputs : Option (List Param)
deriving DecidableEq, Repr

/-- A parsed JSON document; `abi` is `none` when the document has no "abi"
key. -/
structure Doc where
  abi : Option (List Entry)
deriving DecidableEq, Repr

/-- The outcome of `json.load` on one matched file: a parse failure or a
document. -/
inductive FileContent where
  | unparseable
  | parsed (doc : Doc)
deriving DecidableEq, Repr

/-- A fatal Python exception raised during the run. -/
inductive Err where
  | parseError
  | keyError (key : String)
deriving DecidableEq, Repr

/-- The declared types of a parameter list, in order; `none` when some
parameter record is missing its "type" key. -/
def paramTypes : List Param → Option (List String)
  | [] => some []
  | p :: ps =>
    match p.type with
    | none => none
    | some t => (paramTypes ps).map fun ts => t :: ts

/-- The body of the inner loop for one ABI entry: `.ok none` when the type
guard skips the entry, `.ok (some line)` when a line is printed for it,
`.error e` when a dictionary access raises. The "name" access (line 12 of the
script) precedes the parameter-type accesses (lines 13 and 16). -/
def processEntry (e : Entry) : Except Err (Option String) :=
  match e.type with
  | none => .error (.keyError "type")
  | some t =>
    if t ≠ "function" then .ok none
    else
      match e.name with
      | none => .error (.keyError "name")
      | some function_name =>
        match paramTypes (e.inputs.getD []) with
        | none => .error (.keyError "type")
        | some arg_types =>
          let function_signature :=
            bytesHex (function_abi_to_4byte_selector function_name arg_types)
          let arg_string := String.intercalate ", " arg_types
          .ok (some ("[\"0x" ++ function_signature ++ "\", \"" ++ function_name ++
            "(" ++ arg_string ++ ")\"],"))

/-- The inner loop over `json_data["abi"]`: the printed lines in order, and
the first fatal error when one occurs — no later entry is processed after
it. -/
def processEntries : List Entry → List String × Option Err
  | [] => ([], none)
  | e :: rest =>
    match processEntry e with
    | .error err => ([], some err)
    | .ok none => processEntries rest
    | .ok (some line) =>
      let r := processEntries rest
      (line :: r.1, r.2)

/-- One iteration of the outer loop: `json.load` on the file, the `["abi"]`
access, then the entry loop. -/
def processFile : FileContent → List String × Option Err
  | .unparseable => ([], some .parseError)
  | .parsed doc =>
    match doc.abi with
    | none => ([], some (.keyError "abi"))
    | some entries => processEntries entries

/-- The whole script, run on the list of files the glob found: everything
printed to standard output in order, and the fatal error that terminated the
run, if any — no later file is processed after an error. -/
def runScript : List FileContent → List String × Option Err
  | [] => ([], none)
  | f :: fs =>
    match processFile f with
    | (out, some err) => (out, some err)
    | (out, none) =>
      let r := runScript fs
      (out ++ r.1, r.2)

/-- The formatted output line for a function entry with the given name and
argument types (the f-string of the script's `print` call). -/
def lineFor (name : String) (argTypes : List String) : String :=
  "[\"0x" ++ bytesHex (function_abi_to_4byte_selector name argTypes) ++ "\", \"" ++
    name ++ "(" ++ String.intercalate ", " argTypes ++ ")\"],"

/-- The output line an entry contributes, if any: `some` exactly for
function entries whose required keys are all present. -/
def entryLine (e : Entry) : Option String :=
  if e.type = some "function" then
    match e.name, paramTypes (e.inputs.getD []) with
    | some n, some tys => some (lineFor n tys)
    | _, _ => none
  else none

/-- An entry whose processing cannot raise: its "type" key is present, and
when it is a function entry, its "name" key and every parameter's "type" key
are present as well. -/
def entryOk (e : Entry) : Bool :=
  match e.type with
  | none => false
  | some t =>
    if t ≠ "function" then true
    else e.name.isSome && (e.inputs.getD []).all fun p => p.type.isSome

end RefreshAbiMap

namespace RefreshAbiMap

/-! ## Helper lemmas -/

theorem hexDigit_mem (n : Nat) : hexDigit n ∈ hexDigits := by
  rw [hexDigit, List.getD_eq_getElem?_getD]
  cases h : hexDigits[n]? with
  | none => simpa using (by decide : ('0' : Char) ∈ hexDigits)
  | some c => simpa using List.getElem?_mem h

theorem hexOfBytes_mem {c : Char} {bs : List Nat} (h : c ∈ hexOfBytes bs) :
    c ∈ hexDigits := by
  induction bs with
  | nil => simp [hexOfBytes] at h
  | cons b bs ih =>
    rcases (by simpa [hexOfBytes] using h : c = hexDigit (b / 16 % 16) ∨
        c = hexDigit (b % 16) ∨ c ∈ hexOfBytes bs) with h1 | h1 | h1
    · exact h1 ▸ hexDigit_mem _
    · exact h1 ▸ hexDigit_mem _
    · exact ih h1

theorem hexOfBytes_length (bs : List Nat) :
    (hexOfBytes bs).length = 2 * bs.length := by
  induction bs with
  | nil => rfl
  | cons b bs ih => simp [hexOfBytes, ih]; ring

theorem bytesHex_length (bs : List Nat) :
    (bytesHex bs).length = 2 * bs.length := by
  simpa [bytesHex, String.length] using hexOfBytes_length bs

theorem bytesHex_mem {c : Char} {bs : List Nat} (h : c ∈ (bytesHex bs).data) :
    c ∈ hexDigits := hexOfBytes_mem (by simpa [bytesHex] using h)

theorem keccak256_length (msg : List Nat) : (keccak256 msg).length = 32 := by
  simp [keccak256]

theorem selector_length (name : String) (types : List String) :
    (function_abi_to_4byte_selector name types).length = 4 := by
  simp [function_abi_to_4byte_selector, keccak256_length]

theorem selectorHex_length (name : String) (types : List String) :
    (bytesHex (function_abi_to_4byte_selector name types)).length = 8 := by
  rw [bytesHex_length, selector_length]

theorem paramTypes_isSome_of_all {ps : List Param}
    (h : (ps.all fun p => p.type.isSome) = true) :
    ∃ tys, paramTypes ps = some tys := by
  induction ps with
  | nil => exact ⟨[], rfl⟩
  | cons p ps ih =>
    rw [List.all_cons, Bool.and_eq_true] at h
    obtain ⟨t, ht⟩ := Option.isSome_iff_exists.mp h.1
    obtain ⟨tys, hts⟩ := ih h.2
    exact ⟨t :: tys, by simp [paramTypes, ht, hts]⟩

theorem processEntry_eq_ok {e : Entry} (h : entryOk e = true) :
    processEntry e = .ok (entryLine e) := by
  obtain ⟨ty, nm, inp⟩ := e
  cases ty with
  | none => exact absurd h (by simp [entryOk])
  | some t =>
    by_cases ht : t = "function"
    · subst ht
      cases nm with
      | none => exact absurd h (by simp [entryOk])
      | some n =>
        have hall : ((inp.getD []).all fun p => p.type.isSome) = true := by
          simpa [entryOk] using h
        obtain ⟨tys, htys⟩ := paramTypes_isSome_of_all hall
        simp [processEntry, entryLine, htys, lineFor]
    · simp [processEntry, entryLine, ht]

theorem processEntries_eq_filterMap {es : List Entry}
    (h : ∀ e ∈ es, entryOk e = true) :
    processEntries es = (es.filterMap entryLine, none) := by
  induction es with
  | nil => rfl
  | cons e es ih =>
    have he := processEntry_eq_ok (h e (by simp))
    have hrest := ih fun x hx => h x (List.mem_cons_of_mem _ hx)
    cases hl : entryLine e with
    | none => simp [processEntries, he, hl, hrest]
    | some line => simp [processEntries, he, hl, hrest]

end RefreshAbiMap

namespace RefreshAbiMap

/-- A file whose processing cannot raise: it parses, its "abi" key is
present, and every entry satisfies `entryOk`. -/
def fileOk : FileContent → Bool
  | .unparseable => false
  | .parsed doc =>
    match doc.abi with
    | none => false
    | some es => es.all entryOk

/-- The lines a file contributes to the output. -/
def fileLines : FileContent → List String
  | .unparseable => []
  | .parsed doc => (doc.abi.getD []).filterMap entryLine

theorem processFile_eq_of_ok {f : FileContent} (h : fileOk f = true) :
    processFile f = (fileLines f, none) := by
  cases f with
  | unparseable => simp [fileOk] at h
  | parsed doc =>
    cases hd : doc.abi with
    | none => rw [fileOk] at h; simp [hd] at h
    | some es =>
      rw [fileOk, hd] at h
      have hall : ∀ e ∈ es, entryOk e = true := List.all_eq_true.mp h
      simp [processFile, fileLines, hd, processEntries_eq_filterMap hall]

theorem runScript_eq_flatten {fs : List FileContent}
    (h : ∀ f ∈ fs, fileOk f = true) :
    runScript fs = ((fs.map fileLines).flatten, none) := by
  induction fs with
  | nil => rfl
  | cons f fs ih =>
    have hf := processFile_eq_of_ok (h f (by simp))
    have hrest := ih fun x hx => h x (List.mem_cons_of_mem _ hx)
    simp [runScript, hf, hrest]

theorem processEntries_append_of_error (es2 : List Entry) :
    ∀ es1 out err, processEntries es1 = (out, some err) →
      processEntries (es1 ++ es2) = (out, some err) := by
  intro es1
  induction es1 with
  | nil => intro out err h; simp [processEntries] at h
  | cons e es ih =>
    intro out err h
    simp only [processEntries, List.cons_append] at h ⊢
    cases hpe : processEntry e with
    | error e2 => rw [hpe] at h; exact h
    | ok r =>
      rw [hpe] at h
      cases r with
      | none => exact ih out err h
      | some line =>
        replace h : (line :: (processEntries es).1, (processEntries es).2) =
          (out, some err) := h
        show (line :: (processEntries (es ++ es2)).1, (processEntries (es ++ es2)).2) =
          (out, some err)
        rw [Prod.mk.injEq] at h
        obtain ⟨h1, h2⟩ := h
        have hes : processEntries es = ((processEntries es).1, some err) := by
          rw [← h2]
        rw [ih (processEntries es).1 err hes, ← h1]

theorem runScript_append_of_error (fs2 : List FileContent) :
    ∀ fs1 out err, runScript fs1 = (out, some err) →
      runScript (fs1 ++ fs2) = (out, some err) := by
  intro fs1
  induction fs1 with
  | nil => intro out err h; simp [runScript] at h
  | cons f fs ih =>
    intro out err h
    simp only [runScript, List.cons_append] at h ⊢
    cases hpf : processFile f with
    | mk out1 oerr =>
      rw [hpf] at h
      cases oerr with
      | some e2 => exact h
      | none =>
        replace h : (out1 ++ (runScript fs).1, (runScript fs).2) = (out, some err) := h
        show (out1 ++ (runScript (fs ++ fs2)).1, (runScript (fs ++ fs2)).2) =
          (out, some err)
        rw [Prod.mk.injEq] at h
        obtain ⟨h1, h2⟩ := h
        have hfs : runScript fs = ((runScript fs).1, some err) := by
          rw [← h2]
        rw [ih (runScript fs).1 err hfs, ← h1]

end RefreshAbiMap

namespace RefreshAbiMap

/-- The `transfer(address, uint256)` example entry used by the spec. -/
def transferEntry : Entry :=
  { type := some "function", name := some "transfer",
    inputs := some [{ type := some "address" }, { type := some "uint256" }] }

/-! ## Claims -/

/-- C8: when the set of files matching the wildcard pattern in the current
working directory is empty, the script prints nothing to standard output and
terminates without error. -/
theorem C8_no_files_no_output_no_error : runScript [] = ([], none) := rfl

/-- C3: for every entry whose kind field is anything other than "function"
(for example "event" or "constructor"), the script produces no output line
for that entry: the entry is skipped and the remaining output is exactly
that of the rest of the entry list. -/
theorem C3_non_function_no_output (e : Entry) (k : String) (rest : List Entry)
    (hk : e.type = some k) (hne : k ≠ "function") :
    processEntry e = .ok none ∧
    processEntries (e :: rest) = processEntries rest := by
  have h1 : processEntry e = .ok none := by simp [processEntry, hk, hne]
  exact ⟨h1, by simp [processEntries, h1]⟩

theorem C3_witness :
    (Entry.mk (some "event") (some "Transfer") (some []) : Entry).type = some "event" ∧
    "event" ≠ "function" ∧
    (processEntry ⟨some "event", some "Transfer", some []⟩ = .ok none ∧
      processEntries (⟨some "event", some "Transfer", some []⟩ :: [transferEntry]) =
        processEntries [transferEntry]) :=
  ⟨rfl, by decide,
    C3_non_function_no_output ⟨some "event", some "Transfer", some []⟩ "event"
      [transferEntry] rfl (by decide)⟩

/-- C10: for every entry whose kind is not "function", only the entry's kind
field is read: such an entry missing its "name" or "inputs" fields (here:
arbitrary `nm` and `inp`, in particular `none`) never causes a failure and
never affects the output. -/
theorem C10_non_function_reads_only_kind (k : String) (nm : Option String)
    (inp : Option (List Param)) (rest : List Entry) (h : k ≠ "function") :
    processEntry ⟨some k, nm, inp⟩ = .ok none ∧
    processEntries (⟨some k, nm, inp⟩ :: rest) = processEntries rest := by
  have h1 : processEntry ⟨some k, nm, inp⟩ = .ok none := by simp [processEntry, h]
  exact ⟨h1, by simp [processEntries, h1]⟩

theorem C10_witness :
    "constructor" ≠ "function" ∧
    (processEntry ⟨some "constructor", none, none⟩ = .ok none ∧
      processEntries (⟨some "constructor", none, none⟩ :: [transferEntry]) =
        processEntries [transferEntry]) :=
  ⟨by decide,
    C10_non_function_reads_only_kind "constructor" none none [transferEntry] (by decide)⟩

/-- C6: selector computation is a deterministic function of the signature
text: whenever two function entries have identical canonical signature text,
the computed selectors (and their printed hex forms) are identical. -/
theorem C6_selector_deterministic (n1 : String) (tys1 : List String) (n2 : String)
    (tys2 : List String) (h : abi_to_signature n1 tys1 = abi_to_signature n2 tys2) :
    function_abi_to_4byte_selector n1 tys1 = function_abi_to_4byte_selector n2 tys2 ∧
    bytesHex (function_abi_to_4byte_selector n1 tys1) =
      bytesHex (function_abi_to_4byte_selector n2 tys2) := by
  have h1 : function_abi_to_4byte_selector n1 tys1 =
      function_abi_to_4byte_selector n2 tys2 := by
    unfold function_abi_to_4byte_selector
    rw [h]
  exact ⟨h1, congrArg bytesHex h1⟩

theorem C6_witness :
    abi_to_signature "transfer" ["address", "uint256"] =
      abi_to_signature "transfer" ["address", "uint256"] ∧
    (function_abi_to_4byte_selector "transfer" ["address", "uint256"] =
        function_abi_to_4byte_selector "transfer" ["address", "uint256"] ∧
      bytesHex (function_abi_to_4byte_selector "transfer" ["address", "uint256"]) =
        bytesHex (function_abi_to_4byte_selector "transfer" ["address", "uint256"])) :=
  ⟨rfl, C6_selector_deterministic "transfer" ["address", "uint256"] "transfer"
    ["address", "uint256"] rfl⟩

end RefreshAbiMap

namespace RefreshAbiMap

theorem append_empty_parens (s : String) :
    s ++ "(" ++ String.intercalate ", " ([] : List String) ++ ")\"]," =
      s ++ "()\"]," := by
  show s ++ "(" ++ "" ++ ")\"]," = s ++ "()\"],"
  rw [String.append_empty, String.append_assoc]
  exact congrArg (fun t => s ++ t) (by decide)

/-- C7: for every function entry whose parameter sequence is empty, the
signature printed in the output line is exactly `name()` with nothing
between the parentheses. -/
theorem C7_empty_params_signature (e : Entry) (n : String)
    (hty : e.type = some "function") (hn : e.name = some n)
    (hinp : e.inputs = some []) :
    processEntry e =
      .ok (some ("[\"0x" ++ bytesHex (function_abi_to_4byte_selector n []) ++
        "\", \"" ++ n ++ "()\"],")) := by
  simp only [processEntry, hty, hn, hinp]
  rw [if_neg (show ¬("function" ≠ "function") by decide)]
  exact congrArg Except.ok (congrArg some (append_empty_parens _))

theorem C7_witness :
    (Entry.mk (some "function") (some "decimals") (some []) : Entry).type =
        some "function" ∧
    (Entry.mk (some "function") (some "decimals") (some []) : Entry).name =
        some "decimals" ∧
    (Entry.mk (some "function") (some "decimals") (some []) : Entry).inputs =
        some [] ∧
    processEntry ⟨some "function", some "decimals", some []⟩ =
      .ok (some ("[\"0x" ++ bytesHex (function_abi_to_4byte_selector "decimals" []) ++
        "\", \"" ++ "decimals" ++ "()\"],")) :=
  ⟨rfl, rfl, rfl,
    C7_empty_params_signature ⟨some "function", some "decimals", some []⟩ "decimals"
      rfl rfl rfl⟩

/-- C9: a function entry whose record has no "inputs" field at all is not an
error: it is processed exactly as an entry with an empty parameter sequence,
producing the output line for signature `name()`. -/
theorem C9_missing_inputs_as_empty (e : Entry) (hinp : e.inputs = none) :
    processEntry e = processEntry { e with inputs := some [] } ∧
    (∀ n, e.type = some "function" → e.name = some n →
      processEntry e =
        .ok (some ("[\"0x" ++ bytesHex (function_abi_to_4byte_selector n []) ++
          "\", \"" ++ n ++ "()\"],"))) := by
  obtain ⟨ty, nm, inp⟩ := e
  change inp = none at hinp
  subst hinp
  refine ⟨rfl, fun n hty hn => ?_⟩
  exact C7_empty_params_signature ⟨ty, nm, some []⟩ n hty hn rfl

theorem C9_witness :
    (Entry.mk (some "function") (some "decimals") none : Entry).inputs = none ∧
    processEntry ⟨some "function", some "decimals", none⟩ =
      processEntry ⟨some "function", some "decimals", some []⟩ ∧
    processEntry ⟨some "function", some "decimals", none⟩ =
      .ok (some ("[\"0x" ++ bytesHex (function_abi_to_4byte_selector "decimals" []) ++
        "\", \"" ++ "decimals" ++ "()\"],")) :=
  ⟨rfl, (C9_missing_inputs_as_empty ⟨some "function", some "decimals", none⟩ rfl).1,
    (C9_missing_inputs_as_empty ⟨some "function", some "decimals", none⟩ rfl).2
      "decimals" rfl rfl⟩

end RefreshAbiMap

namespace RefreshAbiMap

/-- C5: the selector printed for an entry is derived by a deterministic hash
of the entry's canonical signature text, truncated to its first 4 bytes and
hex-encoded without a leading prefix; the "0x" prefix appears only in the
printed output line, never inside the selector computation — the selector
hex string consists of hexadecimal digits only and in particular never
contains the character 'x'. -/
theorem C5_selector_hash_truncation (e : Entry) (n : String) (tys : List String)
    (hty : e.type = some "function") (hn : e.name = some n)
    (htys : paramTypes (e.inputs.getD []) = some tys) :
    processEntry e = .ok (some ("[\"0x" ++
      bytesHex ((keccak256 (utf8Bytes (abi_to_signature n tys))).take 4) ++
      "\", \"" ++ n ++ "(" ++ String.intercalate ", " tys ++ ")\"],")) ∧
    (∀ c ∈ (bytesHex ((keccak256 (utf8Bytes (abi_to_signature n tys))).take 4)).data,
      c ∈ hexDigits) ∧
    'x' ∉ (bytesHex ((keccak256 (utf8Bytes (abi_to_signature n tys))).take 4)).data := by
  refine ⟨?_, fun c hc => bytesHex_mem hc,
    fun hx => absurd (bytesHex_mem hx) (by decide)⟩
  simp [processEntry, hty, hn, htys, function_abi_to_4byte_selector]

theorem C5_witness :
    transferEntry.type = some "function" ∧
    transferEntry.name = some "transfer" ∧
    paramTypes (transferEntry.inputs.getD []) = some ["address", "uint256"] ∧
    processEntry transferEntry = .ok (some ("[\"0x" ++
      bytesHex ((keccak256 (utf8Bytes
        (abi_to_signature "transfer" ["address", "uint256"]))).take 4) ++
      "\", \"" ++ "transfer" ++ "(" ++
      String.intercalate ", " ["address", "uint256"] ++ ")\"],")) :=
  ⟨rfl, rfl, by decide,
    (C5_selector_hash_truncation transferEntry "transfer" ["address", "uint256"]
      rfl rfl (by decide)).1⟩

/-- C4: if any input file is not parseable, or its "abi" field is absent, or
a processed entry lacks a required field, the whole run fails fatally at that
point with no partial-result recovery: the failing prefix determines the
whole run's outcome, and no further files or entries are processed after the
error. -/
theorem C4_fatal_errors_no_recovery :
    processFile .unparseable = ([], some .parseError) ∧
    (∀ doc : Doc, doc.abi = none →
      processFile (.parsed doc) = ([], some (.keyError "abi"))) ∧
    (∀ e : Entry, e.type = none → processEntry e = .error (.keyError "type")) ∧
    (∀ e : Entry, e.type = some "function" → e.name = none →
      processEntry e = .error (.keyError "name")) ∧
    (∀ es1 es2 out err, processEntries es1 = (out, some err) →
      processEntries (es1 ++ es2) = (out, some err)) ∧
    (∀ fs1 fs2 out err, runScript fs1 = (out, some err) →
      runScript (fs1 ++ fs2) = (out, some err)) := by
  refine ⟨rfl, ?_, ?_, ?_, ?_, ?_⟩
  · intro doc h; simp [processFile, h]
  · intro e h; simp [processEntry, h]
  · intro e h1 h2; simp [processEntry, h1, h2]
  · intro es1 es2 out err h; exact processEntries_append_of_error es2 es1 out err h
  · intro fs1 fs2 out err h; exact runScript_append_of_error fs2 fs1 out err h

theorem C4_witness :
    runScript ([FileContent.unparseable] ++
        [FileContent.parsed ⟨some [transferEntry]⟩]) = ([], some .parseError) ∧
    processEntries ([⟨some "function", none, none⟩] ++ [transferEntry]) =
      ([], some (.keyError "name")) :=
  ⟨C4_fatal_errors_no_recovery.2.2.2.2.2 [.unparseable]
      [.parsed ⟨some [transferEntry]⟩] [] .parseError (by decide),
    C4_fatal_errors_no_recovery.2.2.2.2.1 [⟨some "function", none, none⟩]
      [transferEntry] [] (.keyError "name") (by decide)⟩

end RefreshAbiMap

namespace RefreshAbiMap

theorem entryOk_function {e : Entry} (hty : e.type = some "function")
    (h : entryOk e = true) :
    ∃ n tys, e.name = some n ∧ paramTypes (e.inputs.getD []) = some tys := by
  unfold entryOk at h
  rw [hty] at h
  replace h : (if "function" ≠ "function" then true
      else e.name.isSome && (e.inputs.getD []).all fun p => p.type.isSome) = true := h
  rw [if_neg (show ¬("function" ≠ "function") by decide), Bool.and_eq_true] at h
  obtain ⟨n, hn⟩ := Option.isSome_iff_exists.mp h.1
  obtain ⟨tys, htys⟩ := paramTypes_isSome_of_all h.2
  exact ⟨n, tys, hn, htys⟩

theorem entryLine_function {e : Entry} {n : String} {tys : List String}
    (hty : e.type = some "function") (hn : e.name = some n)
    (htys : paramTypes (e.inputs.getD []) = some tys) :
    entryLine e = some (lineFor n tys) := by
  simp [entryLine, hty, hn, htys]

/-- C1: for every collection of well-formed input documents and every entry
in an "abi" sequence whose kind is "function", the script prints exactly one
line for the entry, of the form `["0x<selector>", "<name>(<types>)"],` —
the run's output is exactly the concatenation, in order, of one line per
function entry, where the selector part is the entry's 8-hex-digit selector
and the types are joined by comma-space, with the trailing comma. -/
theorem C1_one_line_per_function_entry (fs : List FileContent)
    (h : ∀ f ∈ fs, fileOk f = true) :
    runScript fs = ((fs.map fileLines).flatten, none) ∧
    ∀ doc es, FileContent.parsed doc ∈ fs → doc.abi = some es →
      fileLines (.parsed doc) = es.filterMap entryLine ∧
      ∀ e ∈ es, e.type = some "function" →
        ∃ n tys, e.name = some n ∧ paramTypes (e.inputs.getD []) = some tys ∧
          entryLine e = some ("[\"0x" ++
            bytesHex (function_abi_to_4byte_selector n tys) ++ "\", \"" ++ n ++
            "(" ++ String.intercalate ", " tys ++ ")\"],") ∧
          (bytesHex (function_abi_to_4byte_selector n tys)).length = 8 ∧
          ∀ c ∈ (bytesHex (function_abi_to_4byte_selector n tys)).data,
            c ∈ hexDigits := by
  refine ⟨runScript_eq_flatten h, ?_⟩
  intro doc es hmem habi
  have hf := h _ hmem
  simp only [fileOk, habi] at hf
  have hok : ∀ e ∈ es, entryOk e = true := List.all_eq_true.mp hf
  refine ⟨by simp [fileLines, habi], ?_⟩
  intro e he hty
  obtain ⟨n, tys, hn, htys⟩ := entryOk_function hty (hok e he)
  exact ⟨n, tys, hn, htys, entryLine_function hty hn htys,
    selectorHex_length n tys, fun c hc => bytesHex_mem hc⟩

theorem C1_witness :
    (∀ f ∈ [FileContent.parsed ⟨some [transferEntry]⟩], fileOk f = true) ∧
    (runScript [FileContent.parsed ⟨some [transferEntry]⟩] =
        (([FileContent.parsed ⟨some [transferEntry]⟩].map fileLines).flatten, none) ∧
      ∀ doc es,
        FileContent.parsed doc ∈ [FileContent.parsed ⟨some [transferEntry]⟩] →
        doc.abi = some es →
        fileLines (.parsed doc) = es.filterMap entryLine ∧
        ∀ e ∈ es, e.type = some "function" →
          ∃ n tys, e.name = some n ∧ paramTypes (e.inputs.getD []) = some tys ∧
            entryLine e = some ("[\"0x" ++
              bytesHex (function_abi_to_4byte_selector n tys) ++ "\", \"" ++ n ++
              "(" ++ String.intercalate ", " tys ++ ")\"],") ∧
            (bytesHex (function_abi_to_4byte_selector n tys)).length = 8 ∧
            ∀ c ∈ (bytesHex (function_abi_to_4byte_selector n tys)).data,
              c ∈ hexDigits) :=
  ⟨by decide,
    C1_one_line_per_function_entry [FileContent.parsed ⟨some [transferEntry]⟩]
      (by decide)⟩

end RefreshAbiMap

namespace RefreshAbiMap

/-- C2 (counterexample): the claim as stated is false on the code. For the
document whose "abi" holds the single transfer entry, the printed line's
signature part is "transfer(address, uint256)" — the argument types joined
with comma-space — not the exact canonical signature string
"transfer(address,uint256)" the claim asserts, so the asserted output
equality fails (the two lines even have different lengths). -/
theorem C2_counterexample :
    ¬ processEntries [transferEntry] =
      (["[\"0x" ++ bytesHex (function_abi_to_4byte_selector "transfer"
          ["address", "uint256"]) ++ "\", \"transfer(address,uint256)\"],"], none) := by
  intro hclaim
  have hact : processEntries [transferEntry] =
      ([lineFor "transfer" ["address", "uint256"]], none) := rfl
  rw [hact] at hclaim
  have hline : lineFor "transfer" ["address", "uint256"] =
      "[\"0x" ++ bytesHex (function_abi_to_4byte_selector "transfer"
        ["address", "uint256"]) ++ "\", \"transfer(address,uint256)\"]," := by
    simpa using congrArg Prod.fst hclaim
  have hlen := congrArg String.length hline
  rw [lineFor] at hlen
  simp only [String.length_append, selectorHex_length] at hlen
  exact absurd hlen (by decide)

set_option maxRecDepth 100000 in
/-- C2 (amended): for a document whose "abi" contains one function entry
named transfer with parameter types address and uint256, the printed output
equals the selector computed for the canonical signature
transfer(address,uint256), followed by the signature as the script displays
it, with the types joined by comma-space: transfer(address, uint256). -/
theorem C2_amended_transfer_line :
    abi_to_signature "transfer" ["address", "uint256"] =
      "transfer(address,uint256)" ∧
    processEntries [transferEntry] =
      (["[\"0x" ++
        bytesHex ((keccak256 (utf8Bytes "transfer(address,uint256)")).take 4) ++
        "\", \"transfer(address, uint256)\"],"], none) := by
  refine ⟨by decide, ?_⟩
  rfl

end RefreshAbiMap
